import Mathlib

/-!
Verification development for the HACK assembler (`src/hack_asm.py`).

The assembler's core pipeline is embedded shallowly:
  * a source line is a `List Char` (`Line`);
  * a Python `dict` is an association list in insertion order; assigning to
    an existing key replaces its value in place, assigning to a fresh key
    appends (`dinsert`); `{**d1, **d2}` folds the entries of `d2` into `d1`
    with `dinsert`, so a key of `d2` overrides the same key of `d1` (`dmerge`);
  * a Python `KeyError` (dict lookup miss) is modelled with `Option`:
    functions that can fail a lookup return `none` in that case;
  * `int(s)` on a decimal digit string is `parseDec`, `str(n)` on a
    natural number is `natToDec`, `bin(n)[2:]` is `natToBin`;
  * `s.index(c)` together with the `c in s` test is `strIndex` (the index of
    the first occurrence, `none` when absent).

Python raises `IndexError` on `line[0]` / `line[1]` for lines shorter than
the access; the embedding pattern-matches instead, so theorems about
malformed (crashing) lines are outside the model and the claim theorems
quantify over the shapes the program actually handles.
-/

namespace HackAsm

abbrev Line := List Char

/-! ### Python dict model -/

/-- Lookup in a Python dict modelled as an association list (first match;
keys are unique whenever the list was built by `dinsert`). -/
def dfind {α : Type} : List (Line × α) → Line → Option α
  | [], _ => none
  | (k2, v) :: rest, k => if k2 = k then some v else dfind rest k

/-- `d[k] = v` on a Python dict: replace in place when the key exists,
append when it is fresh. -/
def dinsert {α : Type} : List (Line × α) → Line → α → List (Line × α)
  | [], k, v => [(k, v)]
  | (k2, v2) :: rest, k, v =>
      if k2 = k then (k2, v) :: rest else (k2, v2) :: dinsert rest k v

/-- `{**d1, **d2}`: every entry of `d2` is assigned into `d1` in order,
so `d2` overrides `d1` on common keys. -/
def dmerge {α : Type} (d1 d2 : List (Line × α)) : List (Line × α) :=
  d2.foldl (fun t kv => dinsert t kv.1 kv.2) d1

/-- The keys of a dict are pairwise distinct (true of every dict built by
`dinsert`, and of the literal tables below). -/
def keysNodup {α : Type} (d : List (Line × α)) : Prop :=
  (d.map Prod.fst).Nodup

instance {α : Type} (d : List (Line × α)) : Decidable (keysNodup d) := by
  unfold keysNodup; infer_instance

/-! ### Strings and numerals -/

/-- Whitespace removal: `"".join(line.split())`. -/
def removeWs (l : Line) : Line := l.filter (fun c => !c.isWhitespace)

/-- Index of the first occurrence of `c` (`s.index(c)`), `none` when `c`
is absent (`c not in s`). -/
def strIndex (c : Char) : Line → Option Nat
  | [] => none
  | a :: rest => if a = c then some 0 else (strIndex c rest).map (· + 1)

/-- The ASCII character of a decimal or binary digit `d < 10`. -/
def digitChar (d : Nat) : Char := Char.ofNat (48 + d)

/-- Digits of `n` in base `b`, most significant first, empty for `0`;
structural recursion on a fuel argument (any fuel `≥ n` gives the digits,
see `natToDigAux_congr`). -/
def natToDigAux (b : Nat) : Nat → Nat → Line
  | 0, _ => []
  | fuel + 1, n =>
    if n = 0 then [] else natToDigAux b fuel (n / b) ++ [digitChar (n % b)]

/-- Decimal digits of `n`, most significant first; empty for `0`. -/
def natToDecAux (n : Nat) : Line := natToDigAux 10 n n

/-- `str(n)` for a natural number `n`. -/
def natToDec (n : Nat) : Line := if n = 0 then ['0'] else natToDecAux n

/-- Binary digits of `n`, most significant first; empty for `0`. -/
def natToBinAux (n : Nat) : Line := natToDigAux 2 n n

/-- `bin(n)[2:]` for a natural number `n`. -/
def natToBin (n : Nat) : Line := if n = 0 then ['0'] else natToBinAux n

/-- `int(s)` on a string of decimal digits. -/
def parseDec (l : Line) : Nat :=
  l.foldl (fun acc c => acc * 10 + (c.toNat - 48)) 0

/-! ### The assembler, function by function -/

/-- `parser` (the Line Normalizer), file reading stripped away: per raw
line, skip it when empty, remove all whitespace, then if a `/` occurs the
line is kept truncated at the first `/` only when that index is nonzero
(a first `/` at index 0 appends nothing, dropping the line); a line with
no `/` is kept whole. -/
def parser : List Line → List Line
  | [] => []
  | line :: rest =>
    if line = [] then parser rest
    else
      match strIndex '/' (removeWs line) with
      | some ind =>
          if ind ≠ 0 then (removeWs line).take ind :: parser rest else parser rest
      | none => removeWs line :: parser rest

/-- One line contains a label declaration when it contains `'('`
(the code's `'(' not in line` test, negated). -/
def isLabelLine (l : Line) : Bool := l.contains '('

/-- `line[1:-1]`: the label name between the parentheses. -/
def labelName (l : Line) : Line := (l.drop 1).dropLast

/-- The loop of `label_table`: `tbl` is the table so far and `count` the
number of retained (non-label) instructions seen so far.  The Python loop
iterates over a copy and `remove`s each label line from the shared list;
since every removed string contains `'('` and no retained line does, the
final list is exactly the label-free filter, returned here as the second
component. -/
def label_table_aux : List Line → List (Line × Nat) → Nat → List (Line × Nat) × List Line
  | [], tbl, _ => (tbl, [])
  | line :: rest, tbl, count =>
    if isLabelLine line then
      label_table_aux rest (dinsert tbl (labelName line) count) count
    else
      let r := label_table_aux rest tbl (count + 1)
      (r.1, line :: r.2)

/-- `label_table`: the label table plus the label-free instruction list
(the list the caller sees after the in-place mutation). -/
def label_table (instr_lst : List Line) : List (Line × Nat) × List Line :=
  label_table_aux instr_lst [] 0

/-- `const_table`: the 23 predefined symbols in insertion order (`R0..R15`
from the loop, then the individual assignments).  All keys are distinct, so
the sequence of dict assignments is this literal association list. -/
def const_table : List (Line × Nat) :=
  [("R0".data, 0), ("R1".data, 1), ("R2".data, 2), ("R3".data, 3),
   ("R4".data, 4), ("R5".data, 5), ("R6".data, 6), ("R7".data, 7),
   ("R8".data, 8), ("R9".data, 9), ("R10".data, 10), ("R11".data, 11),
   ("R12".data, 12), ("R13".data, 13), ("R14".data, 14), ("R15".data, 15),
   ("SCREEN".data, 16384), ("KBD".data, 24576),
   ("SP".data, 0), ("LCL".data, 1), ("ARG".data, 2),
   ("THIS".data, 3), ("THAT".data, 4)]

/-- The loop of `var_table`: scan the list; for an address instruction
`@symb` whose operand does not start with a digit, allocate `ram_pointer`
to `symb` when it is in none of the label table, the constant table, or
the table built so far. -/
def var_table_aux :
    List Line → List (Line × Nat) → List (Line × Nat) → List (Line × Nat) → Nat →
      List (Line × Nat)
  | [], _, _, tbl, _ => tbl
  | line :: rest, lbl_tbl, const_tbl, tbl, ram_pointer =>
    match line with
    | c0 :: c1 :: ops =>
      if c0 = '@' then
        if c1.isDigit then var_table_aux rest lbl_tbl const_tbl tbl ram_pointer
        else
          if (dfind lbl_tbl (c1 :: ops)).isNone && (dfind const_tbl (c1 :: ops)).isNone
              && (dfind tbl (c1 :: ops)).isNone then
            var_table_aux rest lbl_tbl const_tbl (dinsert tbl (c1 :: ops) ram_pointer)
              (ram_pointer + 1)
          else var_table_aux rest lbl_tbl const_tbl tbl ram_pointer
      else var_table_aux rest lbl_tbl const_tbl tbl ram_pointer
    | _ => var_table_aux rest lbl_tbl const_tbl tbl ram_pointer

/-- `var_table`: user variables, first occurrence first, RAM addresses
from 16 upward. -/
def var_table (instr_lst : List Line) (lbl_tbl const_tbl : List (Line × Nat)) :
    List (Line × Nat) :=
  var_table_aux instr_lst lbl_tbl const_tbl [] 16

/-- `symb_tbl = {**lbl_tbl, **const_tbl, **var_tbl}` inside `refer_to_num`. -/
def symb_tbl (lbl_tbl const_tbl var_tbl : List (Line × Nat)) : List (Line × Nat) :=
  dmerge (dmerge lbl_tbl const_tbl) var_tbl

/-- `refer_to_num` (the Symbol Resolver): substitute every symbolic address
operand with `'@' + str(symb_tbl[symb])`; a lookup miss (Python `KeyError`)
makes the whole run fail (`none`). -/
def refer_to_num (instr_lst : List Line) (lbl_tbl const_tbl var_tbl : List (Line × Nat)) :
    Option (List Line) :=
  match instr_lst with
  | [] => some []
  | line :: rest =>
    match
      (match line with
       | c0 :: c1 :: ops =>
         if c0 = '@' then
           if c1.isDigit then some line
           else
             match dfind (symb_tbl lbl_tbl const_tbl var_tbl) (c1 :: ops) with
             | some v => some ('@' :: natToDec v)
             | none => none
         else some line
       | _ => some line) with
    | some new_line =>
      match refer_to_num rest lbl_tbl const_tbl var_tbl with
      | some new_lst => some (new_line :: new_lst)
      | none => none
    | none => none

/-- `a_instr_encoder`: `bin(int(instr[1:]))[2:]` left-padded with `'0'`
to length 16 (the Python loop prepends one `'0'` exactly
`16 - len(bin_str)` times, a no-op when the numeral is 16 bits or more). -/
def a_instr_encoder (instr : Line) : Line :=
  let bin_str := natToBin (parseDec (instr.drop 1))
  List.replicate (16 - bin_str.length) '0' ++ bin_str

/-- The computation-code table of `bin_encoder`, in assignment order;
all 28 keys are distinct (note `-D` and `!D` both carry `0001101`). -/
def comp_tbl : List (Line × Line) :=
  [("0".data, "0101010".data), ("1".data, "0111111".data),
   ("-1".data, "0111010".data), ("D".data, "0001100".data),
   ("A".data, "0110000".data), ("M".data, "1110000".data),
   ("!D".data, "0001101".data), ("!A".data, "0110001".data),
   ("!M".data, "1110001".data), ("-D".data, "0001101".data),
   ("-A".data, "0110011".data), ("-M".data, "1110011".data),
   ("D+1".data, "0011111".data), ("A+1".data, "0110111".data),
   ("M+1".data, "1110111".data), ("D-1".data, "0001110".data),
   ("A-1".data, "0110010".data), ("M-1".data, "1110010".data),
   ("D+A".data, "0000010".data), ("D+M".data, "1000010".data),
   ("D-A".data, "0010011".data), ("D-M".data, "1010011".data),
   ("A-D".data, "0000111".data), ("M-D".data, "1000111".data),
   ("D&A".data, "0000000".data), ("D&M".data, "1000000".data),
   ("D|A".data, "0010101".data), ("D|M".data, "1010101".data)]

/-- The destination-code table of `bin_encoder`. -/
def dest_tbl : List (Line × Line) :=
  [("null".data, "000".data), ("M".data, "001".data), ("D".data, "010".data),
   ("MD".data, "011".data), ("A".data, "100".data), ("AM".data, "101".data),
   ("AD".data, "110".data), ("AMD".data, "111".data)]

/-- The jump-code table of `bin_encoder`. -/
def jmp_tbl : List (Line × Line) :=
  [("null".data, "000".data), ("JGT".data, "001".data), ("JEQ".data, "010".data),
   ("JGE".data, "011".data), ("JLT".data, "100".data), ("JNE".data, "101".data),
   ("JLE".data, "110".data), ("JMP".data, "111".data)]

/-- `c_instr_encoder`.  In the Python, `ind_eq` is `-len(line)-1` when no
`'='` occurs (so `line[:ind_eq] = ''` and `line[ind_eq+1:...] =
line[0:...]`) and `ind_jmp` is `len(line)` when no `';'` occurs (so
`line[ind_jmp+1:] = ''`); the four slice cases below are those slices.
A lookup miss in any of the three tables is a failure (`none`). -/
def c_instr_encoder (line : Line) (comp_t dest_t jmp_t : List (Line × Line)) :
    Option Line :=
  let dest0 : Line :=
    match strIndex '=' line with
    | some ind_eq => line.take ind_eq
    | none => []
  let dest := if dest0 = [] then "null".data else dest0
  let jmp0 : Line :=
    match strIndex ';' line with
    | some ind_jmp => line.drop (ind_jmp + 1)
    | none => []
  let jmp := if jmp0 = [] then "null".data else jmp0
  let comp : Line :=
    match strIndex '=' line, strIndex ';' line with
    | some ind_eq, some ind_jmp => (line.take ind_jmp).drop (ind_eq + 1)
    | some ind_eq, none => line.drop (ind_eq + 1)
    | none, some ind_jmp => line.take ind_jmp
    | none, none => line
  match dfind comp_t comp, dfind dest_t dest, dfind jmp_t jmp with
  | some c, some d, some j => some ("111".data ++ c ++ d ++ j)
  | _, _, _ => none

/-- `bin_encoder`: dispatch on the leading `'@'`; the three code tables are
the local dicts of the Python function. -/
def bin_encoder : List Line → Option (List Line)
  | [] => some []
  | line :: rest =>
    match
      (match line with
       | c0 :: _ =>
         if c0 = '@' then some (a_instr_encoder line)
         else c_instr_encoder line comp_tbl dest_tbl jmp_tbl
       | [] => c_instr_encoder line comp_tbl dest_tbl jmp_tbl) with
    | some bin_line =>
      match bin_encoder rest with
      | some bin_lst => some (bin_line :: bin_lst)
      | none => none
    | none => none

/-- The pipeline of `main` with the file I/O stripped: parse, build the
three tables, resolve symbols, encode. -/
def assemble (lines : List Line) : Option (List Line) :=
  let parsed := parser lines
  let lt := label_table parsed
  let const_t := const_table
  let var_t := var_table lt.2 lt.1 const_t
  match refer_to_num lt.2 lt.1 const_t var_t with
  | some resolved => bin_encoder resolved
  | none => none

/-! ### Dict lemmas -/

theorem dfind_dinsert {α : Type} :
    ∀ (d : List (Line × α)) (k k' : Line) (v : α),
      dfind (dinsert d k v) k' = if k = k' then some v else dfind d k'
  | [], k, k', v => by
      by_cases h : k = k' <;> simp [dinsert, dfind, h]
  | (k2, v2) :: rest, k, k', v => by
      by_cases h2 : k2 = k
      · subst h2
        by_cases h' : k2 = k'
        · subst h'; simp [dinsert, dfind]
        · simp [dinsert, dfind, h']
      · by_cases h' : k2 = k'
        · subst h'
          have hk : ¬ k = k2 := fun hh => h2 hh.symm
          simp [dinsert, dfind, h2, hk]
        · simp [dinsert, dfind, h2, h', dfind_dinsert rest k k' v]

theorem dfind_eq_none_of_not_mem {α : Type} :
    ∀ (d : List (Line × α)) (k : Line), k ∉ d.map Prod.fst → dfind d k = none
  | [], _, _ => rfl
  | (k2, v2) :: rest, k, h => by
      simp only [List.map_cons, List.mem_cons] at h
      push_neg at h
      have h2 : ¬ k2 = k := fun hh => h.1 hh.symm
      simp [dfind, h2, dfind_eq_none_of_not_mem rest k h.2]

theorem dfind_isSome_iff_mem {α : Type} :
    ∀ (d : List (Line × α)) (k : Line), (dfind d k).isSome ↔ k ∈ d.map Prod.fst
  | [], k => by
      constructor
      · intro h; simp [dfind] at h
      · intro h; simp at h
  | (k2, v2) :: rest, k => by
      by_cases h : k2 = k
      · subst h
        constructor
        · intro _
          rw [List.map_cons]
          exact List.mem_cons_self _ _
        · intro _
          simp [dfind]
      · have hne : ¬ k = k2 := fun hh => h hh.symm
        simp only [dfind, if_neg h, List.map_cons, List.mem_cons]
        rw [dfind_isSome_iff_mem rest k]
        exact (or_iff_right hne).symm

theorem dmerge_nil {α : Type} (d1 : List (Line × α)) : dmerge d1 [] = d1 := rfl

theorem dmerge_cons {α : Type} (d1 : List (Line × α)) (k2 : Line) (v2 : α)
    (rest : List (Line × α)) :
    dmerge d1 ((k2, v2) :: rest) = dmerge (dinsert d1 k2 v2) rest := rfl

theorem dfind_dmerge_isSome {α : Type} :
    ∀ (d2 d1 : List (Line × α)) (k : Line),
      (dfind (dmerge d1 d2) k).isSome ↔ (dfind d1 k).isSome ∨ (dfind d2 k).isSome
  | [], d1, k => by simp [dmerge_nil, dfind]
  | (k2, v2) :: rest, d1, k => by
      rw [dmerge_cons, dfind_dmerge_isSome rest (dinsert d1 k2 v2) k, dfind_dinsert]
      by_cases h : k2 = k
      · subst h; simp [dfind]
      · simp [dfind, h, or_assoc]

theorem dfind_dmerge_of_nodup {α : Type} :
    ∀ (d2 d1 : List (Line × α)) (k : Line), keysNodup d2 →
      dfind (dmerge d1 d2) k = (dfind d2 k).orElse (fun _ => dfind d1 k)
  | [], d1, k, _ => by
      rw [dmerge_nil]
      cases dfind d1 k <;> rfl
  | (k2, v2) :: rest, d1, k, h => by
      have h' : (List.map Prod.fst ((k2, v2) :: rest)).Nodup := h
      rw [List.map_cons] at h'
      have hcons := List.nodup_cons.mp h'
      have hnd : keysNodup rest := hcons.2
      have hk2 : k2 ∉ rest.map Prod.fst := hcons.1
      rw [dmerge_cons, dfind_dmerge_of_nodup rest (dinsert d1 k2 v2) k hnd,
        dfind_dinsert]
      by_cases hk : k2 = k
      · subst hk
        rw [dfind_eq_none_of_not_mem rest _ hk2]
        simp [dfind, Option.orElse]
      · simp [dfind, hk]

theorem dinsert_eq_append {α : Type} :
    ∀ (d : List (Line × α)) (k : Line) (v : α), dfind d k = none →
      dinsert d k v = d ++ [(k, v)]
  | [], _, _, _ => rfl
  | (k2, v2) :: rest, k, v, h => by
      by_cases hk : k2 = k
      · simp [dfind, hk] at h
      · simp only [dfind, hk, if_false] at h
        simp [dinsert, hk, dinsert_eq_append rest k v h]

/-! ### Numeral lemmas -/

theorem natToDigAux_congr (b : Nat) (hb : 2 ≤ b) :
    ∀ (fuel1 fuel2 n : Nat), n ≤ fuel1 → n ≤ fuel2 →
      natToDigAux b fuel1 n = natToDigAux b fuel2 n
  | 0, fuel2, n, h1, _ => by
      have : n = 0 := by omega
      subst this
      cases fuel2 <;> simp [natToDigAux]
  | fuel1 + 1, fuel2, n, h1, h2 => by
      by_cases h : n = 0
      · subst h
        cases fuel2 <;> simp [natToDigAux]
      · cases fuel2 with
        | zero => omega
        | succ f2 =>
          have hdiv : n / b < n := Nat.div_lt_self (Nat.pos_of_ne_zero h) (by omega)
          rw [natToDigAux, natToDigAux]
          simp only [h, if_false]
          rw [natToDigAux_congr b hb fuel1 f2 (n / b) (by omega) (by omega)]

theorem natToDecAux_zero : natToDecAux 0 = [] := rfl

theorem natToDecAux_pos (n : Nat) (h : n ≠ 0) :
    natToDecAux n = natToDecAux (n / 10) ++ [digitChar (n % 10)] := by
  unfold natToDecAux
  cases n with
  | zero => exact absurd rfl h
  | succ m =>
    rw [natToDigAux]
    simp only [Nat.succ_ne_zero, if_false]
    have hdiv : (m + 1) / 10 < m + 1 := Nat.div_lt_self (Nat.succ_pos m) (by decide)
    rw [natToDigAux_congr 10 (by decide) m ((m + 1) / 10) ((m + 1) / 10)
      (by omega) (le_refl _)]

theorem digitChar_toNat (d : Nat) (h : d < 10) : (digitChar d).toNat = 48 + d := by
  interval_cases d <;> rfl

theorem parseDec_foldl (n : Nat) :
    ∀ a : Nat, (natToDecAux n).foldl (fun acc c => acc * 10 + (c.toNat - 48)) a
      = a * 10 ^ (natToDecAux n).length + n := by
  induction n using Nat.strong_induction_on with
  | _ n ih =>
    intro a
    by_cases h : n = 0
    · subst h; simp [natToDecAux_zero]
    · rw [natToDecAux_pos n h]
      rw [List.foldl_append]
      have hlt : n / 10 < n := Nat.div_lt_self (Nat.pos_of_ne_zero h) (by decide)
      rw [ih (n / 10) hlt a]
      simp only [List.foldl_cons, List.foldl_nil, List.length_append,
        List.length_singleton]
      rw [digitChar_toNat (n % 10) (Nat.mod_lt n (by decide))]
      have : 48 + n % 10 - 48 = n % 10 := by omega
      rw [this, pow_succ]
      have hdm := Nat.div_add_mod n 10
      ring_nf
      omega

theorem parseDec_natToDec (n : Nat) : parseDec (natToDec n) = n := by
  by_cases h : n = 0
  · subst h; rfl
  · unfold natToDec parseDec
    simp only [h, if_false]
    rw [parseDec_foldl n 0]
    simp

theorem natToBinAux_zero : natToBinAux 0 = [] := rfl

theorem natToBinAux_pos (n : Nat) (h : n ≠ 0) :
    natToBinAux n = natToBinAux (n / 2) ++ [digitChar (n % 2)] := by
  unfold natToBinAux
  cases n with
  | zero => exact absurd rfl h
  | succ m =>
    rw [natToDigAux]
    simp only [Nat.succ_ne_zero, if_false]
    have hdiv : (m + 1) / 2 < m + 1 := Nat.div_lt_self (Nat.succ_pos m) (by decide)
    rw [natToDigAux_congr 2 (by decide) m ((m + 1) / 2) ((m + 1) / 2)
      (by omega) (le_refl _)]

theorem natToBinAux_length_le (k : Nat) :
    ∀ n : Nat, n < 2 ^ k → (natToBinAux n).length ≤ k := by
  induction k with
  | zero =>
    intro n hn
    have : n = 0 := by omega
    subst this; simp [natToBinAux_zero]
  | succ k ih =>
    intro n hn
    by_cases h : n = 0
    · subst h; simp [natToBinAux_zero]
    · rw [natToBinAux_pos n h]
      simp only [List.length_append, List.length_singleton]
      have : n / 2 < 2 ^ k := by
        rw [Nat.div_lt_iff_lt_mul (by decide : 0 < 2)]
        calc n < 2 ^ (k + 1) := hn
        _ = 2 ^ k * 2 := by rw [pow_succ]
      have := ih (n / 2) this
      omega

theorem natToBinAux_length_ge (k : Nat) :
    ∀ n : Nat, 2 ^ k ≤ n → k + 1 ≤ (natToBinAux n).length := by
  induction k with
  | zero =>
    intro n hn
    have h : n ≠ 0 := by omega
    rw [natToBinAux_pos n h]
    simp
  | succ k ih =>
    intro n hn
    have h : n ≠ 0 := by
      have : 0 < 2 ^ (k + 1) := Nat.pos_pow_of_pos _ (by decide)
      omega
    rw [natToBinAux_pos n h]
    simp only [List.length_append, List.length_singleton]
    have : 2 ^ k ≤ n / 2 := by
      rw [Nat.le_div_iff_mul_le (by decide : 0 < 2)]
      calc 2 ^ k * 2 = 2 ^ (k + 1) := (pow_succ 2 k).symm
      _ ≤ n := hn
    have := ih (n / 2) this
    omega

theorem natToBinAux_head (n : Nat) (h : 1 ≤ n) :
    ∃ r : Line, natToBinAux n = '1' :: r := by
  induction n using Nat.strong_induction_on with
  | _ n ih =>
    by_cases h1 : n = 1
    · subst h1
      refine ⟨[], ?_⟩
      rw [natToBinAux_pos 1 (by decide)]
      rfl
    · have h2 : 2 ≤ n := by omega
      have hd1 : 1 ≤ n / 2 := Nat.one_le_div_iff (by decide) |>.mpr h2
      have hdlt : n / 2 < n := Nat.div_lt_self (by omega) (by decide)
      obtain ⟨r, hr⟩ := ih (n / 2) hdlt hd1
      refine ⟨r ++ [digitChar (n % 2)], ?_⟩
      rw [natToBinAux_pos n (by omega), hr]
      simp

/-! ### Spec-side definitions

These follow the spec's wording and exist to be compared with the
source-derived functions above. -/

/-- The user-variable names of a label-free stream, in first-occurrence
order: operands of address instructions that do not start with a digit and
name neither a label nor a constant; `seen` holds the names already
collected. -/
def newSyms (lst : List Line) (lbl_tbl const_tbl : List (Line × Nat))
    (seen : List Line) : List Line :=
  match lst with
  | [] => []
  | line :: rest =>
    match line with
    | c0 :: c1 :: ops =>
      if c0 = '@' then
        if c1.isDigit then newSyms rest lbl_tbl const_tbl seen
        else
          if (dfind lbl_tbl (c1 :: ops)).isNone && (dfind const_tbl (c1 :: ops)).isNone
              && !(seen.contains (c1 :: ops)) then
            (c1 :: ops) :: newSyms rest lbl_tbl const_tbl ((c1 :: ops) :: seen)
          else newSyms rest lbl_tbl const_tbl seen
      else newSyms rest lbl_tbl const_tbl seen
    | _ => newSyms rest lbl_tbl const_tbl seen

/-- Allocate consecutive addresses from `ptr` to a list of names. -/
def allocFrom : List Line → Nat → List (Line × Nat)
  | [], _ => []
  | s :: rest, ptr => (s, ptr) :: allocFrom rest (ptr + 1)

/-- Build a compute instruction from an optional destination clause, a
computation, and an optional jump clause: `[dest=]comp[;jump]`. -/
def mkC (dest : Option Line) (comp : Line) (jmp : Option Line) : Line :=
  (match dest with | some d => d ++ ['='] | none => []) ++ comp ++
    (match jmp with | some j => ';' :: j | none => [])

/-! ### Label-table lemmas -/

theorem label_table_aux_snd :
    ∀ (lst : List Line) (tbl : List (Line × Nat)) (count : Nat),
      (label_table_aux lst tbl count).2 = lst.filter (fun l => !(isLabelLine l))
  | [], _, _ => rfl
  | line :: rest, tbl, count => by
      by_cases h : isLabelLine line
      · simp [label_table_aux, h, List.filter_cons, label_table_aux_snd rest]
      · simp [label_table_aux, h, List.filter_cons, label_table_aux_snd rest]

theorem label_table_aux_append :
    ∀ (xs ys : List Line) (tbl : List (Line × Nat)) (count : Nat),
      (label_table_aux (xs ++ ys) tbl count).1
        = (label_table_aux ys (label_table_aux xs tbl count).1
            (count + (xs.filter (fun l => !(isLabelLine l))).length)).1
  | [], ys, tbl, count => by simp [label_table_aux]
  | x :: xs, ys, tbl, count => by
      by_cases h : isLabelLine x
      · simp only [List.cons_append, label_table_aux, h, if_pos, List.filter_cons]
        simp only [h, Bool.not_true, Bool.false_eq_true, if_false]
        exact label_table_aux_append xs ys (dinsert tbl (labelName x) count) count
      · simp only [List.cons_append, label_table_aux, h, Bool.false_eq_true,
          if_false, List.filter_cons, Bool.not_false, if_true, List.length_cons]
        rw [List.append_eq, label_table_aux_append xs ys tbl (count + 1)]
        have : count + 1 + (xs.filter (fun l => !(isLabelLine l))).length
            = count + ((xs.filter (fun l => !(isLabelLine l))).length + 1) := by omega
        rw [this]

theorem label_table_aux_fst_untouched :
    ∀ (lst : List Line) (tbl : List (Line × Nat)) (count : Nat) (k : Line),
      (∀ l ∈ lst, isLabelLine l = true → labelName l ≠ k) →
      dfind (label_table_aux lst tbl count).1 k = dfind tbl k
  | [], _, _, _, _ => rfl
  | line :: rest, tbl, count, k, h => by
      by_cases hl : isLabelLine line
      · simp only [label_table_aux, hl, if_pos]
        rw [label_table_aux_fst_untouched rest _ _ k
          (fun l hm hh => h l (List.mem_cons_of_mem _ hm) hh)]
        rw [dfind_dinsert]
        have : labelName line ≠ k := h line (List.mem_cons_self _ _) hl
        simp [this]
      · simp only [label_table_aux, hl, Bool.false_eq_true, if_false]
        exact label_table_aux_fst_untouched rest _ _ k
          (fun l hm hh => h l (List.mem_cons_of_mem _ hm) hh)

/-! ### Variable-table lemmas -/

theorem dfind_append {α : Type} :
    ∀ (d1 d2 : List (Line × α)) (k : Line),
      dfind (d1 ++ d2) k = (dfind d1 k).orElse (fun _ => dfind d2 k)
  | [], d2, k => rfl
  | (k2, v2) :: rest, d2, k => by
      by_cases h : k2 = k
      · simp [dfind, h, Option.orElse]
      · simp [dfind, h, dfind_append rest d2 k]

theorem contains_eq_decide (l : List Line) (s : Line) :
    l.contains s = decide (s ∈ l) :=
  List.elem_eq_mem s l

theorem contains_iff_mem (l : List Line) (s : Line) :
    l.contains s = true ↔ s ∈ l := by
  rw [contains_eq_decide]
  simp

theorem dfind_isNone_eq_not_contains {α : Type} (d : List (Line × α)) (k : Line) :
    (dfind d k).isNone = !((d.map Prod.fst).contains k) := by
  by_cases h : k ∈ d.map Prod.fst
  · have h1 : (dfind d k).isSome := (dfind_isSome_iff_mem d k).mpr h
    have h2 : (d.map Prod.fst).contains k = true := (contains_iff_mem _ _).mpr h
    rw [h2]
    cases hd : dfind d k
    · rw [hd] at h1; simp at h1
    · simp
  · have h1 : dfind d k = none := by
      cases hd : dfind d k
      · rfl
      · exact absurd ((dfind_isSome_iff_mem d k).mp (by simp [hd])) h
    have h2 : (d.map Prod.fst).contains k = false := by
      cases hc : (d.map Prod.fst).contains k
      · rfl
      · exact absurd ((contains_iff_mem _ _).mp hc) h
    rw [h1, h2]
    rfl

theorem contains_cons_comm (l : List Line) (a s : Line) :
    (l ++ [a]).contains s = (a :: l).contains s := by
  rw [contains_eq_decide, contains_eq_decide]
  apply decide_eq_decide.mpr
  simp [or_comm]

theorem newSyms_congr :
    ∀ (lst : List Line) (lbl_tbl const_tbl : List (Line × Nat))
      (seen1 seen2 : List Line),
      (∀ s : Line, seen1.contains s = seen2.contains s) →
      newSyms lst lbl_tbl const_tbl seen1 = newSyms lst lbl_tbl const_tbl seen2
  | [], _, _, _, _, _ => rfl
  | line :: rest, lbl, cst, seen1, seen2, h => by
      rcases line with _ | ⟨c0, _ | ⟨c1, ops⟩⟩
      · simpa [newSyms] using newSyms_congr rest lbl cst seen1 seen2 h
      · simpa [newSyms] using newSyms_congr rest lbl cst seen1 seen2 h
      · by_cases h0 : c0 = '@'
        · by_cases h1 : c1.isDigit
          · simpa [newSyms, h0, h1] using newSyms_congr rest lbl cst seen1 seen2 h
          · rw [newSyms, newSyms]
            simp only [h0, h1, if_true, if_false, Bool.false_eq_true, h (c1 :: ops)]
            by_cases hc : ((dfind lbl (c1 :: ops)).isNone
                && (dfind cst (c1 :: ops)).isNone
                && !(seen2.contains (c1 :: ops))) = true
            · simp only [hc, if_true]
              rw [newSyms_congr rest lbl cst ((c1 :: ops) :: seen1)
                ((c1 :: ops) :: seen2)
                (fun s => by rw [List.contains_cons, List.contains_cons, h s])]
            · simp only [hc, if_false]
              exact newSyms_congr rest lbl cst seen1 seen2 h
        · simpa [newSyms, h0] using newSyms_congr rest lbl cst seen1 seen2 h

theorem var_table_aux_eq_alloc :
    ∀ (lst : List Line) (lbl_tbl const_tbl tbl : List (Line × Nat)) (ptr : Nat),
      var_table_aux lst lbl_tbl const_tbl tbl ptr
        = tbl ++ allocFrom (newSyms lst lbl_tbl const_tbl (tbl.map Prod.fst)) ptr
  | [], _, _, tbl, ptr => by simp [var_table_aux, newSyms, allocFrom]
  | line :: rest, lbl, cst, tbl, ptr => by
      rcases line with _ | ⟨c0, _ | ⟨c1, ops⟩⟩
      · simpa [var_table_aux, newSyms] using var_table_aux_eq_alloc rest lbl cst tbl ptr
      · simpa [var_table_aux, newSyms] using var_table_aux_eq_alloc rest lbl cst tbl ptr
      · by_cases h0 : c0 = '@'
        · by_cases h1 : c1.isDigit
          · simpa [var_table_aux, newSyms, h0, h1] using
              var_table_aux_eq_alloc rest lbl cst tbl ptr
          · rw [var_table_aux, newSyms]
            simp only [h0, h1, if_true, if_false, Bool.false_eq_true]
            rw [dfind_isNone_eq_not_contains tbl (c1 :: ops)]
            by_cases hc : ((dfind lbl (c1 :: ops)).isNone
                && (dfind cst (c1 :: ops)).isNone
                && !((tbl.map Prod.fst).contains (c1 :: ops))) = true
            · simp only [hc, if_true]
              have hnone : dfind tbl (c1 :: ops) = none := by
                have h3 : (tbl.map Prod.fst).contains (c1 :: ops) = false := by
                  rcases Bool.and_eq_true .. |>.mp hc with ⟨_, h3⟩
                  simpa using h3
                have := dfind_isNone_eq_not_contains tbl (c1 :: ops)
                rw [h3] at this
                simpa [Option.isNone_iff_eq_none] using this
              rw [var_table_aux_eq_alloc rest lbl cst (dinsert tbl (c1 :: ops) ptr)
                (ptr + 1)]
              rw [dinsert_eq_append tbl (c1 :: ops) ptr hnone]
              rw [newSyms_congr rest lbl cst
                ((tbl ++ [((c1 : Char) :: ops, ptr)]).map Prod.fst)
                ((c1 :: ops) :: tbl.map Prod.fst)
                (fun s => by rw [List.map_append]; simpa using
                  contains_cons_comm (tbl.map Prod.fst) (c1 :: ops) s)]
              simp [allocFrom, List.append_assoc]
            · simp only [hc, if_false]
              exact var_table_aux_eq_alloc rest lbl cst tbl ptr
        · simpa [var_table_aux, newSyms, h0] using
            var_table_aux_eq_alloc rest lbl cst tbl ptr

theorem var_table_eq_alloc (lst : List Line) (lbl_tbl const_tbl : List (Line × Nat)) :
    var_table lst lbl_tbl const_tbl
      = allocFrom (newSyms lst lbl_tbl const_tbl []) 16 := by
  have := var_table_aux_eq_alloc lst lbl_tbl const_tbl [] 16
  simpa [var_table] using this

theorem newSyms_not_in_seen :
    ∀ (lst : List Line) (lbl_tbl const_tbl : List (Line × Nat)) (seen : List Line)
      (s : Line), s ∈ newSyms lst lbl_tbl const_tbl seen → seen.contains s = false
  | [], _, _, _, _, h => by simp [newSyms] at h
  | line :: rest, lbl, cst, seen, s, h => by
      rcases line with _ | ⟨c0, _ | ⟨c1, ops⟩⟩
      · exact newSyms_not_in_seen rest lbl cst seen s (by simpa [newSyms] using h)
      · exact newSyms_not_in_seen rest lbl cst seen s (by simpa [newSyms] using h)
      · by_cases h0 : c0 = '@'
        · by_cases h1 : c1.isDigit
          · exact newSyms_not_in_seen rest lbl cst seen s
              (by simpa [newSyms, h0, h1] using h)
          · rw [newSyms] at h
            simp only [h0, h1, if_true, if_false, Bool.false_eq_true] at h
            by_cases hc : ((dfind lbl (c1 :: ops)).isNone
                && (dfind cst (c1 :: ops)).isNone
                && !(seen.contains (c1 :: ops))) = true
            · rw [if_pos hc] at h
              rcases List.mem_cons.mp h with he | hm
              · subst he
                rcases Bool.and_eq_true .. |>.mp hc with ⟨_, h3⟩
                simpa using h3
              · have := newSyms_not_in_seen rest lbl cst ((c1 :: ops) :: seen) s hm
                simp only [List.contains_cons, Bool.or_eq_false_iff] at this
                exact this.2
            · rw [if_neg hc] at h
              exact newSyms_not_in_seen rest lbl cst seen s h
        · exact newSyms_not_in_seen rest lbl cst seen s
            (by simpa [newSyms, h0] using h)

theorem newSyms_covers :
    ∀ (lst : List Line) (lbl_tbl const_tbl : List (Line × Nat)) (seen : List Line)
      (c1 : Char) (ops : Line),
      ('@' :: c1 :: ops) ∈ lst → c1.isDigit = false →
      (dfind lbl_tbl (c1 :: ops)).isNone = true →
      (dfind const_tbl (c1 :: ops)).isNone = true →
      (c1 :: ops) ∈ newSyms lst lbl_tbl const_tbl seen
        ∨ seen.contains (c1 :: ops) = true
  | [], _, _, _, _, _, hm, _, _, _ => by simp at hm
  | line :: rest, lbl, cst, seen, c1, ops, hm, hd, hl, hc => by
      rcases List.mem_cons.mp hm with he | hmem
      · subst he
        rw [newSyms]
        simp only [if_true, hd, Bool.false_eq_true, if_false]
        by_cases hs : seen.contains (c1 :: ops) = true
        · exact Or.inr hs
        · have hs' : seen.contains (c1 :: ops) = false := by
            cases h : seen.contains (c1 :: ops)
            · rfl
            · exact absurd h hs
          left
          rw [hl, hc, hs']
          simp
      · rcases line with _ | ⟨c0, _ | ⟨c1', ops'⟩⟩
        · exact (newSyms_covers rest lbl cst seen c1 ops hmem hd hl hc).imp
            (by simp [newSyms]) id
        · exact (newSyms_covers rest lbl cst seen c1 ops hmem hd hl hc).imp
            (by simp [newSyms]) id
        · by_cases h0 : c0 = '@'
          · by_cases h1 : c1'.isDigit
            · exact (newSyms_covers rest lbl cst seen c1 ops hmem hd hl hc).imp
                (by simp [newSyms, h0, h1]) id
            · rw [newSyms]
              simp only [h0, h1, if_true, if_false, Bool.false_eq_true]
              by_cases hcond : ((dfind lbl (c1' :: ops')).isNone
                  && (dfind cst (c1' :: ops')).isNone
                  && !(seen.contains (c1' :: ops'))) = true
              · rw [if_pos hcond]
                rcases newSyms_covers rest lbl cst ((c1' :: ops') :: seen) c1 ops
                    hmem hd hl hc with h | h
                · exact Or.inl (List.mem_cons_of_mem _ h)
                · simp only [List.contains_cons, Bool.or_eq_true] at h
                  rcases h with h | h
                  · left
                    have : (c1' : Char) :: ops' = c1 :: ops := (eq_of_beq h).symm
                    rw [this]
                    exact List.mem_cons_self _ _
                  · exact Or.inr h
              · rw [if_neg hcond]
                exact (newSyms_covers rest lbl cst seen c1 ops hmem hd hl hc).imp
                  id id
          · exact (newSyms_covers rest lbl cst seen c1 ops hmem hd hl hc).imp
              (by simp [newSyms, h0]) id

theorem newSyms_nodup :
    ∀ (lst : List Line) (lbl_tbl const_tbl : List (Line × Nat)) (seen : List Line),
      (newSyms lst lbl_tbl const_tbl seen).Nodup
  | [], _, _, _ => by simp [newSyms]
  | line :: rest, lbl, cst, seen => by
      rcases line with _ | ⟨c0, _ | ⟨c1, ops⟩⟩
      · simpa [newSyms] using newSyms_nodup rest lbl cst seen
      · simpa [newSyms] using newSyms_nodup rest lbl cst seen
      · by_cases h0 : c0 = '@'
        · by_cases h1 : c1.isDigit
          · rw [newSyms]
            simp only [h0, h1, if_true]
            exact newSyms_nodup rest lbl cst seen
          · rw [newSyms]
            simp only [h0, h1, if_true, if_false, Bool.false_eq_true]
            by_cases hc : ((dfind lbl (c1 :: ops)).isNone
                && (dfind cst (c1 :: ops)).isNone
                && !(seen.contains (c1 :: ops))) = true
            · rw [if_pos hc]
              refine List.nodup_cons.mpr ⟨?_, newSyms_nodup rest lbl cst _⟩
              intro hmem
              have := newSyms_not_in_seen rest lbl cst ((c1 :: ops) :: seen)
                (c1 :: ops) hmem
              rw [List.contains_cons] at this
              simp at this
            · rw [if_neg hc]
              exact newSyms_nodup rest lbl cst seen
        · rw [newSyms]
          simp only [h0, Bool.false_eq_true, if_false]
          exact newSyms_nodup rest lbl cst seen

theorem dfind_allocFrom_isSome :
    ∀ (syms : List Line) (ptr : Nat) (s : Line), s ∈ syms →
      (dfind (allocFrom syms ptr) s).isSome
  | [], _, _, h => by simp at h
  | a :: rest, ptr, s, h => by
      by_cases ha : a = s
      · simp [allocFrom, dfind, ha]
      · rcases List.mem_cons.mp h with he | hm
        · exact absurd he.symm ha
        · simp only [allocFrom, dfind, ha, if_false]
          exact dfind_allocFrom_isSome rest (ptr + 1) s hm

/-! ### Resolver totality -/

theorem refer_to_num_isSome_of_covered :
    ∀ (lst : List Line) (lbl_tbl const_tbl var_tbl : List (Line × Nat)),
      (∀ c1 ops, ('@' :: c1 :: ops) ∈ lst → c1.isDigit = false →
        (dfind (symb_tbl lbl_tbl const_tbl var_tbl) (c1 :: ops)).isSome) →
      (refer_to_num lst lbl_tbl const_tbl var_tbl).isSome
  | [], _, _, _, _ => by simp [refer_to_num]
  | line :: rest, lbl, cst, var, h => by
      have hrest := refer_to_num_isSome_of_covered rest lbl cst var
        (fun c1 ops hm hd => h c1 ops (List.mem_cons_of_mem _ hm) hd)
      obtain ⟨tail, htail⟩ := Option.isSome_iff_exists.mp hrest
      rcases line with _ | ⟨c0, _ | ⟨c1, ops⟩⟩
      · rw [refer_to_num]
        simp [htail]
        intro c0 c1 ops hh
        cases hh
      · rw [refer_to_num]
        simp [htail]
        intro c0' c1' ops' hh
        simp at hh
      · by_cases h0 : c0 = '@'
        · by_cases h1 : c1.isDigit
          · rw [refer_to_num]
            simp [h0, h1, htail]
          · have h1' : c1.isDigit = false := by
              cases hh : c1.isDigit
              · rfl
              · exact absurd hh h1
            subst h0
            have := h c1 ops (List.mem_cons_self _ _) h1'
            obtain ⟨v, hv⟩ := Option.isSome_iff_exists.mp this
            rw [refer_to_num]
            simp [h1', hv, htail]
        · rw [refer_to_num]
          simp [h0, htail]

/-! ### Normalizer and encoder helpers -/

theorem strIndex_eq_none_of_not_mem :
    ∀ (l : Line) (c : Char), c ∉ l → strIndex c l = none
  | [], _, _ => rfl
  | a :: rest, c, h => by
      have ha : ¬ a = c := fun hh => h (hh ▸ List.mem_cons_self a rest)
      simp [strIndex, ha,
        strIndex_eq_none_of_not_mem rest c (fun hm => h (List.mem_cons_of_mem _ hm))]

theorem parser_drops_comment_at_zero (raw : Line) (rest : List Line)
    (h : strIndex '/' (removeWs raw) = some 0) : parser (raw :: rest) = parser rest := by
  have hne : ¬ raw = [] := by
    intro he
    subst he
    simp [removeWs, strIndex] at h
  rw [parser]
  simp [hne, h]

/-- The destination clauses: absent, or any key of the destination table. -/
def destClauses : List (Option Line) := none :: (dest_tbl.map fun kv => some kv.1)

/-- The jump clauses: absent, or any key of the jump table. -/
def jmpClauses : List (Option Line) := none :: (jmp_tbl.map fun kv => some kv.1)

theorem a_instr_drop_one (x : Line) : ('@' :: x).drop 1 = x := rfl

theorem natToBin_length_le (n : Nat) (h : n ≤ 32767) : (natToBin n).length ≤ 15 := by
  by_cases h0 : n = 0
  · subst h0
    simp [natToBin]
  · rw [natToBin]
    simp only [h0, if_false]
    exact natToBinAux_length_le 15 n (by omega)

theorem a_instr_encoder_eq_pad (n : Nat) :
    a_instr_encoder ('@' :: natToDec n)
      = List.replicate (16 - (natToBin n).length) '0' ++ natToBin n := by
  rw [a_instr_encoder, a_instr_drop_one, parseDec_natToDec]

/-! ### The claims -/

set_option maxRecDepth 10000

/-- C2 (counterexample): the claim says a line whose whitespace-free form
has its first `/` at index 0 is emitted unmodified; in the code the
`ind != 0` guard has no else branch, so such a line is appended nowhere:
`parser ["//c"]` is `[]`, not `["//c"]`. -/
theorem claim_C2_counterexample :
    parser ["//c".data] = [] ∧ parser ["//c".data] ≠ ["//c".data] := by
  decide

/-- C2 (amended): for every raw input line that, after whitespace removal,
is non-empty and whose first `/` occurs at index 0, the Line Normalizer
drops that line entirely: it contributes nothing to the output. -/
theorem claim_C2_amended (raw : Line) (rest : List Line)
    (h : strIndex '/' (removeWs raw) = some 0) :
    parser (raw :: rest) = parser rest :=
  parser_drops_comment_at_zero raw rest h

/-- C2 (witness): the comment-only line `//c` is dropped by the normalizer. -/
theorem claim_C2_amended_witness : parser ["//c".data] = [] :=
  claim_C2_amended "//c".data [] (by decide)

/-- C1 (counterexample): the claim says that on a key collision the merged
symbol table favors the label table; but `{**lbl, **const, **var}` lets the
rightmost table win, so with a label `SP -> 5` colliding with the constant
`SP -> 0`, `@SP` resolves to `@0` (the constant), not `@5` (the label). -/
theorem claim_C1_counterexample :
    refer_to_num ["@SP".data] [("SP".data, 5)] const_table [] = some ["@0".data]
    ∧ refer_to_num ["@SP".data] [("SP".data, 5)] const_table [] ≠ some ["@5".data] := by
  decide

/-- C1 (amended): the merged symbol table resolves a colliding name with
precedence variable > constant > label (the rightmost table in
`{**lbl, **const, **var}` wins): the resolver substitutes the variable
table's value first, falling back to the constant table's value, and only
then to the label table's value. -/
theorem claim_C1_amended (lbl_tbl const_tbl var_tbl : List (Line × Nat))
    (c1 : Char) (ops : Line) (hdig : c1.isDigit = false)
    (hcst : keysNodup const_tbl) (hvar : keysNodup var_tbl) :
    refer_to_num ['@' :: c1 :: ops] lbl_tbl const_tbl var_tbl
      = ((dfind var_tbl (c1 :: ops)).orElse (fun _ =>
          (dfind const_tbl (c1 :: ops)).orElse (fun _ =>
            dfind lbl_tbl (c1 :: ops)))).map (fun v => ['@' :: natToDec v]) := by
  have hm : dfind (symb_tbl lbl_tbl const_tbl var_tbl) (c1 :: ops)
      = (dfind var_tbl (c1 :: ops)).orElse (fun _ =>
          (dfind const_tbl (c1 :: ops)).orElse (fun _ =>
            dfind lbl_tbl (c1 :: ops))) := by
    unfold symb_tbl
    rw [dfind_dmerge_of_nodup var_tbl (dmerge lbl_tbl const_tbl) (c1 :: ops) hvar]
    simp only [dfind_dmerge_of_nodup const_tbl lbl_tbl (c1 :: ops) hcst]
  rw [refer_to_num, hm]
  cases hv : ((dfind var_tbl (c1 :: ops)).orElse (fun _ =>
      (dfind const_tbl (c1 :: ops)).orElse (fun _ =>
        dfind lbl_tbl (c1 :: ops)))) with
  | none => simp [hdig]
  | some v => simp [hdig, refer_to_num]

/-- C1 (witness): with a label table binding `SP -> 5`, the constant table,
and an empty variable table, `@SP` resolves through the merge to the
constant's value `0`. -/
theorem claim_C1_amended_witness :
    refer_to_num ['@' :: 'S' :: "P".data] [("SP".data, 5)] const_table []
      = some ["@0".data] :=
  (claim_C1_amended [("SP".data, 5)] const_table [] 'S' "P".data
    (by decide) (by decide) (by decide)).trans (by decide)

/-- C3: for every instruction sequence `S`, label table `L`, and constant
table `C`, resolving `S` against `L`, `C`, and the variable table that
`var_table` builds from that same `S` with `L` and `C` never fails a
lookup: the `KeyError` branch (the spec's UnresolvedSymbolError) is
unreachable. -/
theorem claim_C3_resolver_total (lst : List Line)
    (lbl_tbl const_tbl : List (Line × Nat)) :
    (refer_to_num lst lbl_tbl const_tbl (var_table lst lbl_tbl const_tbl)).isSome := by
  apply refer_to_num_isSome_of_covered
  intro c1 ops hm hd
  unfold symb_tbl
  rw [dfind_dmerge_isSome, dfind_dmerge_isSome]
  by_cases hl : (dfind lbl_tbl (c1 :: ops)).isSome
  · exact Or.inl (Or.inl hl)
  by_cases hc : (dfind const_tbl (c1 :: ops)).isSome
  · exact Or.inl (Or.inr hc)
  · right
    have hln : (dfind lbl_tbl (c1 :: ops)).isNone = true := by
      cases hx : dfind lbl_tbl (c1 :: ops)
      · rfl
      · exact absurd (by simp [hx]) hl
    have hcn : (dfind const_tbl (c1 :: ops)).isNone = true := by
      cases hx : dfind const_tbl (c1 :: ops)
      · rfl
      · exact absurd (by simp [hx]) hc
    rcases newSyms_covers lst lbl_tbl const_tbl [] c1 ops hm hd hln hcn with h | h
    · rw [var_table_eq_alloc]
      exact dfind_allocFrom_isSome _ 16 _ h
    · simp at h

/-- C5: on the sample program `["@2","D=A","@3","D=D+A","@0","M=D"]` (no
labels, no variables) the full pipeline emits exactly the six 16-bit
strings of the spec's scenario, one per input instruction, in input
order. -/
theorem claim_C5_sample_program :
    assemble ["@2".data, "D=A".data, "@3".data, "D=D+A".data, "@0".data, "M=D".data]
      = some ["0000000000000010".data, "1110110000010000".data,
          "0000000000000011".data, "1110000010010000".data,
          "0000000000000000".data, "1110001100001000".data] := by
  decide

/-- C6: the variable table is exactly the first-occurrence list of new
symbols allocated consecutively from RAM address 16 (so each symbol is
added at most once and only address instructions are scanned); in
particular when `foo` is first and `bar` second among the new symbols,
`foo` gets 16 and `bar` gets 17, however often each reappears. -/
theorem claim_C6_var_alloc (lst : List Line) (lbl_tbl const_tbl : List (Line × Nat)) :
    var_table lst lbl_tbl const_tbl
        = allocFrom (newSyms lst lbl_tbl const_tbl []) 16
    ∧ (∀ foo bar rest2, newSyms lst lbl_tbl const_tbl [] = foo :: bar :: rest2 →
        dfind (var_table lst lbl_tbl const_tbl) foo = some 16
        ∧ dfind (var_table lst lbl_tbl const_tbl) bar = some 17) := by
  refine ⟨var_table_eq_alloc lst lbl_tbl const_tbl, ?_⟩
  intro foo bar rest2 h
  have hnd := newSyms_nodup lst lbl_tbl const_tbl []
  rw [h] at hnd
  have hfb : ¬ foo = bar := by
    have := (List.nodup_cons.mp hnd).1
    intro he
    exact this (he ▸ List.mem_cons_self bar rest2)
  rw [var_table_eq_alloc lst lbl_tbl const_tbl, h]
  constructor
  · simp [allocFrom, dfind]
  · simp [allocFrom, dfind, hfb]

/-- C6 (witness): in `["@foo","@bar","@foo"]` with empty label and constant
tables, `foo` receives RAM address 16 and `bar` address 17 even though
`foo` reappears later. -/
theorem claim_C6_var_alloc_witness :
    dfind (var_table ["@foo".data, "@bar".data, "@foo".data] [] []) "foo".data
        = some 16
    ∧ dfind (var_table ["@foo".data, "@bar".data, "@foo".data] [] []) "bar".data
        = some 17 :=
  (claim_C6_var_alloc ["@foo".data, "@bar".data, "@foo".data] [] []).2
    "foo".data "bar".data [] (by decide)

/-- C7: for `0 ≤ n ≤ 32767` the address instruction `@n` encodes to a
leading `'0'` followed by the binary digits of `n` left-padded with zeros
to 15 bits, 16 characters in all. -/
theorem claim_C7_a_encoding (n : Nat) (h : n ≤ 32767) :
    a_instr_encoder ('@' :: natToDec n)
        = '0' :: (List.replicate (15 - (natToBin n).length) '0' ++ natToBin n)
    ∧ (a_instr_encoder ('@' :: natToDec n)).length = 16 := by
  have hlen := natToBin_length_le n h
  constructor
  · rw [a_instr_encoder_eq_pad]
    have h16 : 16 - (natToBin n).length = (15 - (natToBin n).length) + 1 := by omega
    rw [h16, List.replicate_succ, List.cons_append]
  · rw [a_instr_encoder_eq_pad]
    simp only [List.length_append, List.length_replicate]
    omega

/-- C7 (witness): `@32767` encodes to `0111111111111111` (and `@0` to the
all-zero word, evaluated inside the same theorem at 0). -/
theorem claim_C7_a_encoding_witness :
    a_instr_encoder ('@' :: natToDec 32767) = "0111111111111111".data
    ∧ a_instr_encoder ('@' :: natToDec 0) = "0000000000000000".data :=
  ⟨((claim_C7_a_encoding 32767 (by decide)).1).trans (by decide),
   ((claim_C7_a_encoding 0 (by decide)).1).trans (by decide)⟩

/-- C8: the pipeline gives `@SCREEN` exactly the 16-bit word of `@16384`,
because the constant table maps `SCREEN` to 16384 and the resolver
substitutes it before encoding. -/
theorem claim_C8_screen :
    assemble ["@SCREEN".data] = assemble ["@16384".data]
    ∧ assemble ["@SCREEN".data] = some ["0100000000000000".data]
    ∧ dfind const_table ("SCREEN".data) = some 16384 := by
  decide

/-- C9: `-D` and `!D` carry the same 7-bit code `0001101` in the
computation table, so for every destination clause and jump clause
(present or absent) the two compute instructions encode to identical
16-bit strings. -/
theorem claim_C9_comp_collision :
    dfind comp_tbl ("-D".data) = some ("0001101".data)
    ∧ dfind comp_tbl ("!D".data) = some ("0001101".data)
    ∧ ∀ dest ∈ destClauses, ∀ jmp ∈ jmpClauses,
        c_instr_encoder (mkC dest "-D".data jmp) comp_tbl dest_tbl jmp_tbl
          = c_instr_encoder (mkC dest "!D".data jmp) comp_tbl dest_tbl jmp_tbl := by
  decide

/-- C9 (witness): `D=-D;JGT` and `D=!D;JGT` encode identically. -/
theorem claim_C9_comp_collision_witness :
    c_instr_encoder (mkC (some "D".data) "-D".data (some "JGT".data))
        comp_tbl dest_tbl jmp_tbl
      = c_instr_encoder (mkC (some "D".data) "!D".data (some "JGT".data))
        comp_tbl dest_tbl jmp_tbl :=
  claim_C9_comp_collision.2.2 (some "D".data) (by decide) (some "JGT".data) (by decide)

/-- C10: for `32768 ≤ n ≤ 65535`, encoding `@n` silently returns a
16-character string beginning with `'1'` — the overflowed value occupies
the bit the spec reserves as the A-instruction's leading `0`, and no
range check exists (the encoder is total on these inputs). -/
theorem claim_C10_overflow (n : Nat) (h1 : 32768 ≤ n) (h2 : n ≤ 65535) :
    (a_instr_encoder ('@' :: natToDec n)).length = 16
    ∧ (a_instr_encoder ('@' :: natToDec n)).head? = some '1' := by
  have hne : n ≠ 0 := by omega
  have hp15 : (2 : Nat) ^ 15 = 32768 := by norm_num
  have hp16 : (2 : Nat) ^ 16 = 65536 := by norm_num
  have hlen_ge : 16 ≤ (natToBinAux n).length :=
    natToBinAux_length_ge 15 n (by omega)
  have hlen_le : (natToBinAux n).length ≤ 16 :=
    natToBinAux_length_le 16 n (by omega)
  have hL : (natToBinAux n).length = 16 := le_antisymm hlen_le hlen_ge
  have hbin : natToBin n = natToBinAux n := by
    rw [natToBin]
    simp [hne]
  obtain ⟨r, hr⟩ := natToBinAux_head n (by omega)
  constructor
  · rw [a_instr_encoder_eq_pad, hbin, hL]
    simp [hL]
  · rw [a_instr_encoder_eq_pad, hbin, hL]
    simp only [Nat.sub_self, List.replicate_zero, List.nil_append]
    rw [hr]
    rfl

/-- C4: a label declaration `L` (whose name is not redeclared later) is
mapped to the number of retained (non-label) instructions before it, which
is the 0-based position, in the label-free output sequence, of the next
retained instruction after the declaration, however many labels are
declared adjacently; label lines are removed from the output and occupy no
instruction slot. -/
theorem claim_C4_label_positions (pre post : List Line) (L : Line)
    (hL : isLabelLine L = true)
    (hpost : ∀ l ∈ post, isLabelLine l = true → labelName l ≠ labelName L) :
    dfind (label_table (pre ++ L :: post)).1 (labelName L)
        = some ((pre.filter (fun l => !(isLabelLine l))).length)
    ∧ (label_table (pre ++ L :: post)).2
        = (pre ++ L :: post).filter (fun l => !(isLabelLine l))
    ∧ (∀ nxt, (post.filter (fun l => !(isLabelLine l))).head? = some nxt →
        (label_table (pre ++ L :: post)).2.get?
            ((pre.filter (fun l => !(isLabelLine l))).length) = some nxt) := by
  refine ⟨?_, ?_, ?_⟩
  · unfold label_table
    rw [label_table_aux_append pre (L :: post) [] 0]
    rw [label_table_aux]
    simp only [hL, if_true]
    rw [label_table_aux_fst_untouched post _ _ (labelName L) hpost]
    rw [dfind_dinsert]
    simp
  · unfold label_table
    exact label_table_aux_snd (pre ++ L :: post) [] 0
  · intro nxt hn
    unfold label_table
    rw [label_table_aux_snd (pre ++ L :: post) [] 0]
    rw [List.filter_append, List.filter_cons]
    simp only [hL, Bool.not_true, Bool.false_eq_true, if_false]
    rw [List.get?_append_right (le_refl _)]
    rw [Nat.sub_self, List.get?_zero]
    exact hn

/-- C4 (witness): in `["@1","(LOOP)","(END)","D=A"]` the label `LOOP` maps
to index 1, and the label-free output has `D=A` at index 1. -/
theorem claim_C4_label_positions_witness :
    dfind (label_table ["@1".data, "(LOOP)".data, "(END)".data, "D=A".data]).1
        ("LOOP".data) = some 1
    ∧ (label_table ["@1".data, "(LOOP)".data, "(END)".data, "D=A".data]).2.get? 1
        = some ("D=A".data) := by
  have h := claim_C4_label_positions ["@1".data] ["(END)".data, "D=A".data]
    "(LOOP)".data (by decide) (by decide)
  exact ⟨h.1.trans (by decide), (h.2.2 ("D=A".data) (by decide)).trans (by decide)⟩

/-- C10 (witness): `@32768` encodes without error to a 16-character string
starting with `'1'`. -/
theorem claim_C10_overflow_witness :
    (a_instr_encoder ('@' :: natToDec 32768)).length = 16
    ∧ (a_instr_encoder ('@' :: natToDec 32768)).head? = some '1' :=
  claim_C10_overflow 32768 (by decide) (by decide)

end HackAsm
